import Mathlib

/-!
Shallow embedding of the query/normalization core of `src/app.py`
(PPI Explorer): the location normalizer `LOC_CAT_EXPR`, and the query
operations `get_candidates`, `get_display_name` and `fetch_interactions`,
modelled over explicit lists of rows standing for the DuckDB views
`edges` and `idmap`.
-/

/-- A row of the `edges` view: `src, dst, score, strength`.
Scores are modelled as rationals (a linearly ordered field standing in
for the numeric column). -/
structure Edge where
  src : String
  dst : String
  score : ℚ
  strength : String
deriving DecidableEq

/-- A row of the `idmap` view: `id, protein_name, location`, the latter
two nullable (SQL NULL modelled as `none`). -/
structure IdRecord where
  id : String
  protein_name : Option String
  location : Option String
deriving DecidableEq

/-- SQL `TRIM(s)` with the default character set: strips space
characters (U+0020) — and only spaces, per DuckDB/PostgreSQL `trim` —
from both ends of the string. -/
def sqlTrim (s : String) : String :=
  ⟨((s.toList.dropWhile (fun c => c == ' ')).reverse.dropWhile (fun c => c == ' ')).reverse⟩

/-- SQL `lower(s)`: character-wise lowercasing (exact on the ASCII
range, which is all the source's patterns use). -/
def sqlLower (s : String) : String :=
  ⟨s.toList.map Char.toLower⟩

/-- SQL `LIKE` pattern matching over character lists: `%` matches any
(possibly empty) character sequence, `_` matches exactly one character,
every other pattern character matches itself.  Structurally recursive on
the pattern: the `%` case tries every suffix of the text. -/
def likeMatch : List Char → List Char → Bool
  | [], t => t.isEmpty
  | '%' :: ps, t => t.tails.any (fun u => likeMatch ps u)
  | '_' :: _, [] => false
  | '_' :: ps, _ :: cs => likeMatch ps cs
  | _ :: _, [] => false
  | p :: ps, c :: cs => p == c && likeMatch ps cs
termination_by structural ps _ => ps

/-- SQL `t LIKE pat` (case-sensitive). -/
def sqlLike (t pat : String) : Bool :=
  likeMatch pat.toList t.toList

/-- SQL `t ILIKE pat`: case-insensitive `LIKE`, modelled by lowering
both operands. -/
def sqlILike (t pat : String) : Bool :=
  likeMatch (sqlLower pat).toList (sqlLower t).toList

/-- `LOC_CAT_EXPR` from `src/app.py`: the ordered `CASE` expression
normalizing a free-text location (`NULL` modelled as `none`) to one of
sixteen category labels; each branch tests `lower(location)` against a
`LIKE` pattern, first match wins. -/
def locCat (location : Option String) : String :=
  match location with
  | none => "Unknown"
  | some loc =>
    if sqlTrim loc == "" then "Unknown"
    else
      let l := sqlLower loc
      if sqlLike l "%mitochond%" then "Mitochondrion"
      else if sqlLike l "%endoplasmic reticulum%" then "Endoplasmic Reticulum"
      else if sqlLike l "%golgi%" then "Golgi apparatus"
      else if sqlLike l "%plasma membrane%" || sqlLike l "%cell membrane%" || sqlLike l "%cell surface%" then "Plasma membrane"
      else if sqlLike l "%lysosom%" then "Lysosome"
      else if sqlLike l "%endosom%" then "Endosome"
      else if sqlLike l "%peroxisom%" then "Peroxisome"
      else if sqlLike l "%cytosol%" || sqlLike l "%cytoplasm%" then "Cytoplasm"
      else if sqlLike l "%nucleus%" || sqlLike l "%nucleoplasm%" || sqlLike l "%nucleolus%" || sqlLike l "%chromosom%" || sqlLike l "%chromatin%" then "Nucleus"
      else if sqlLike l "%cytoskeleton%" || sqlLike l "%microtubule%" || sqlLike l "%actin%" || sqlLike l "%intermediate filament%" then "Cytoskeleton"
      else if sqlLike l "%extracellular%" || sqlLike l "%secreted%" then "Extracellular"
      else if sqlLike l "%ribosom%" then "Ribosome"
      else if sqlLike l "%centrosom%" then "Centrosome"
      else if sqlLike l "%membrane%" then "Membrane"
      else "Other"

/-- The sixteen fixed labels of the normalizer (§3 of the spec). -/
def locLabels : List String :=
  ["Unknown", "Mitochondrion", "Endoplasmic Reticulum", "Golgi apparatus",
   "Plasma membrane", "Lysosome", "Endosome", "Peroxisome", "Cytoplasm",
   "Nucleus", "Cytoskeleton", "Extracellular", "Ribosome", "Centrosome",
   "Membrane", "Other"]

/-- Disjunction of all fifteen `WHEN ... LIKE` tests of `LOC_CAT_EXPR`
applied to a (non-null) location string: true iff some predicate of the
`CASE` chain after the blank test matches. -/
def locMatchesSome (loc : String) : Bool :=
  let l := sqlLower loc
  sqlLike l "%mitochond%" || sqlLike l "%endoplasmic reticulum%" || sqlLike l "%golgi%"
    || sqlLike l "%plasma membrane%" || sqlLike l "%cell membrane%" || sqlLike l "%cell surface%"
    || sqlLike l "%lysosom%" || sqlLike l "%endosom%" || sqlLike l "%peroxisom%"
    || sqlLike l "%cytosol%" || sqlLike l "%cytoplasm%"
    || sqlLike l "%nucleus%" || sqlLike l "%nucleoplasm%" || sqlLike l "%nucleolus%" || sqlLike l "%chromosom%" || sqlLike l "%chromatin%"
    || sqlLike l "%cytoskeleton%" || sqlLike l "%microtubule%" || sqlLike l "%actin%" || sqlLike l "%intermediate filament%"
    || sqlLike l "%extracellular%" || sqlLike l "%secreted%"
    || sqlLike l "%ribosom%" || sqlLike l "%centrosom%" || sqlLike l "%membrane%"

/-- `COALESCE(NULLIF(TRIM(p), ''), fallback)`: the display-name fallback
chain used by every query of `src/app.py`. -/
def displayFallback (protein_name : Option String) (fallback : String) : String :=
  match protein_name with
  | none => fallback
  | some p => if sqlTrim p == "" then fallback else sqlTrim p

example : locCat (some "nuclear membrane") = "Membrane" := by decide
example : locCat (some "Mitochondrion inner membrane") = "Mitochondrion" := by decide
example : locCat none = "Unknown" := by decide
example : locCat (some "   ") = "Unknown" := by decide
example : locCat (some "random unmapped tissue") = "Other" := by decide

/-- One representative per distinct key in order of first appearance:
the model of SQL `GROUP BY` over whole rows (grouping key = the full
selected tuple), with `seen` accumulating the keys already emitted. -/
def dedupKeep {α : Type} [DecidableEq α] (seen : List α) : List α → List α
  | [] => []
  | r :: rs => if r ∈ seen then dedupKeep seen rs else r :: dedupKeep (r :: seen) rs

/-- A row of the inner `id_hits UNION ALL name_hits` relation in the
identifier branch of `get_candidates`: the three projected columns plus
the literal `rank`. -/
structure CandRow where
  id : String
  pname : String
  loc_cat : String
  rank : Nat
deriving DecidableEq

/-- A row of the final projection of `get_candidates`:
`id, pname, loc_cat`. -/
structure Cand where
  id : String
  pname : String
  loc_cat : String
deriving DecidableEq

/-- Drop the `rank` column: the outer `SELECT id, pname, loc_cat`. -/
def candProj (r : CandRow) : Cand :=
  ⟨r.id, r.pname, r.loc_cat⟩

/-- The `ORDER BY rank, pname` ordering of the identifier branch. -/
def candLE (a b : CandRow) : Prop :=
  a.rank < b.rank ∨ (a.rank = b.rank ∧ a.pname ≤ b.pname)

instance : DecidableRel candLE := fun a b =>
  inferInstanceAs (Decidable (a.rank < b.rank ∨ (a.rank = b.rank ∧ a.pname ≤ b.pname)))

instance : IsTotal CandRow candLE := by
  constructor
  intro a b
  rcases Nat.lt_trichotomy a.rank b.rank with h | h | h
  · exact Or.inl (Or.inl h)
  · rcases le_total a.pname b.pname with hp | hp
    · exact Or.inl (Or.inr ⟨h, hp⟩)
    · exact Or.inr (Or.inr ⟨h.symm, hp⟩)
  · exact Or.inr (Or.inl h)

instance : IsTrans CandRow candLE := by
  constructor
  intro a b c hab hbc
  rcases hab with h1 | ⟨h1, h1p⟩
  · rcases hbc with h2 | ⟨h2, _⟩
    · exact Or.inl (h1.trans h2)
    · exact Or.inl (h2 ▸ h1)
  · rcases hbc with h2 | ⟨h2, h2p⟩
    · exact Or.inl (h1 ▸ h2)
    · exact Or.inr ⟨h1.trans h2, h1p.trans h2p⟩

/-- The `ORDER BY pname` ordering of the name-only branch. -/
def candNameLE (a b : Cand) : Prop :=
  a.pname ≤ b.pname

instance : DecidableRel candNameLE := fun a b =>
  inferInstanceAs (Decidable (a.pname ≤ b.pname))

instance : IsTotal Cand candNameLE :=
  ⟨fun a b => le_total a.pname b.pname⟩

instance : IsTrans Cand candNameLE :=
  ⟨fun _ _ _ h1 h2 => le_trans h1 h2⟩

/-- The rank-1 row built from a record matched by `id = ?`. -/
def exactRowOf (m : IdRecord) : CandRow :=
  ⟨m.id, displayFallback m.protein_name m.id, locCat m.location, 1⟩

/-- The rank-2 row built from a record matched by `id ILIKE ? || '%'`. -/
def prefixRowOf (m : IdRecord) : CandRow :=
  ⟨m.id, displayFallback m.protein_name m.id, locCat m.location, 2⟩

/-- The rank-3 row built from a record matched by
`protein_name ILIKE '%' || ? || '%'`. -/
def nameRowOf (m : IdRecord) : CandRow :=
  ⟨m.id, displayFallback m.protein_name m.id, locCat m.location, 3⟩

/-- The row of the name-only branch built from a matching record. -/
def nameCandOf (m : IdRecord) : Cand :=
  ⟨m.id, displayFallback m.protein_name m.id, locCat m.location⟩

/-- The name-tier match test `protein_name ILIKE '%' || q || '%'`: a
SQL NULL `protein_name` makes the predicate NULL, which `WHERE`
filters out. -/
def nameTierHit (q : String) (m : IdRecord) : Bool :=
  match m.protein_name with
  | none => false
  | some p => sqlILike p ("%" ++ q ++ "%")

/-- The rows of `id_hits UNION ALL name_hits` in the identifier branch
of `get_candidates`, in syntactic `UNION ALL` order: exact id matches
(rank 1), then case-insensitive id-prefix matches (rank 2), then
case-insensitive name-substring matches (rank 3). -/
def candRowsOf (idmap : List IdRecord) (q : String) : List CandRow :=
  (idmap.filter (fun m => m.id == q)).map exactRowOf
    ++ (idmap.filter (fun m => sqlILike m.id (q ++ "%"))).map prefixRowOf
    ++ (idmap.filter (nameTierHit q)).map nameRowOf

/-- The identifier branch of `get_candidates`: group the three-tier
union by `(id, pname, loc_cat, rank)`, order by `rank, pname`, project
the triple and truncate to `limit`. -/
def idBranch (idmap : List IdRecord) (q : String) (limit : Nat) : List Cand :=
  (((dedupKeep [] (candRowsOf idmap q)).insertionSort candLE).map candProj).take limit

/-- The name-only branch of `get_candidates`: records whose
`protein_name` matches `'%' || q || '%'` case-insensitively, ordered by
`pname`, truncated to `limit`. -/
def nameBranch (idmap : List IdRecord) (q : String) (limit : Nat) : List Cand :=
  (((idmap.filter (nameTierHit q)).map nameCandOf).insertionSort candNameLE).take limit

/-- `get_candidates` from `src/app.py`: the identifier branch runs when
the text is non-empty (Python truthiness), contains no space character
(`" " not in query_text`) and has at most 12 characters; otherwise the
name-only branch runs. -/
def get_candidates (idmap : List IdRecord) (query_text : String) (limit : Nat) : List Cand :=
  if query_text ≠ "" ∧ ¬ (' ' ∈ query_text.toList) ∧ query_text.length ≤ 12 then
    idBranch idmap query_text limit
  else
    nameBranch idmap query_text limit

/-- `get_display_name` from `src/app.py`: fetch the first row of
`SELECT COALESCE(NULLIF(TRIM(protein_name), ''), ?) FROM idmap WHERE id = ?`;
when no row exists, return the queried identifier itself. -/
def get_display_name (idmap : List IdRecord) (uniprot_id : String) : String :=
  match idmap.find? (fun m => m.id == uniprot_id) with
  | none => uniprot_id
  | some m => displayFallback m.protein_name uniprot_id

/-- A row of the `nbrs` CTE: the partner (the other endpoint of an edge
touching the queried protein) together with the edge's score and
strength. -/
structure Nbr where
  partner : String
  score : ℚ
  strength : String
deriving DecidableEq

/-- The `nbrs` CTE: edges with the queried protein at either endpoint;
`CASE WHEN e.src = ? THEN e.dst ELSE e.src END` names the partner. -/
def nbrsFor (edges : List Edge) (uniprot_id : String) : List Nbr :=
  (edges.filter (fun e => e.src == uniprot_id || e.dst == uniprot_id)).map
    (fun e => ⟨if e.src == uniprot_id then e.dst else e.src, e.score, e.strength⟩)

/-- `LEFT JOIN idmap m ON m.id = n.partner`: one joined row per
matching metadata record, or a single null-extended row when none
matches. -/
def leftJoinIdmap (idmap : List IdRecord) (n : Nbr) : List (Nbr × Option IdRecord) :=
  match idmap.filter (fun m => m.id == n.partner) with
  | [] => [(n, none)]
  | ms => ms.map (fun m => (n, some m))

/-- A row of the `fetch_interactions` result. -/
structure InterRow where
  partner_id : String
  partner_protein_name : String
  partner_location_category : String
  score : ℚ
  strength : String
deriving DecidableEq

/-- The `SELECT` clause of `fetch_interactions` applied to one joined
row: name fallback and location category read the (possibly
null-extended) metadata side. -/
def interRowOf (p : Nbr × Option IdRecord) : InterRow :=
  ⟨p.1.partner,
   displayFallback (p.2.bind IdRecord.protein_name) p.1.partner,
   locCat (p.2.bind IdRecord.location),
   p.1.score,
   p.1.strength⟩

/-- The three-valued strength filter `(? IS NULL OR n.strength = ?)`. -/
def strengthPass (strength : Option String) (s : String) : Bool :=
  match strength with
  | none => true
  | some v => s == v

/-- The optional category filter: Python `if loc_cats:` treats `None`
and the empty list as "no filter"; otherwise the row's computed
category must be `IN` the list. -/
def locCatsPass (loc_cats : Option (List String)) (cat : String) : Bool :=
  match loc_cats with
  | none => true
  | some l => if l.isEmpty then true else l.contains cat

/-- The `ORDER BY n.score DESC` ordering. -/
def scoreDesc (a b : InterRow) : Prop :=
  b.score ≤ a.score

instance : DecidableRel scoreDesc := fun a b =>
  inferInstanceAs (Decidable (b.score ≤ a.score))

instance : IsTotal InterRow scoreDesc :=
  ⟨fun a b => le_total b.score a.score⟩

instance : IsTrans InterRow scoreDesc :=
  ⟨fun _ _ _ h1 h2 => le_trans h2 h1⟩

/-- The `WHERE` clause of the outer query of `fetch_interactions`. -/
def interPass (min_score : ℚ) (strength : Option String)
    (loc_cats : Option (List String)) (p : Nbr × Option IdRecord) : Bool :=
  decide (min_score ≤ p.1.score) && strengthPass strength p.1.strength
    && locCatsPass loc_cats (locCat (p.2.bind IdRecord.location))

/-- `fetch_interactions` from `src/app.py`: neighbors of the queried
protein, left-joined to metadata, filtered by score, strength and
(optional) category, ordered by score descending and truncated to
`limit`. -/
def fetch_interactions (edges : List Edge) (idmap : List IdRecord) (uniprot_id : String)
    (min_score : ℚ) (strength : Option String) (loc_cats : Option (List String))
    (limit : Nat) : List InterRow :=
  let joined := (nbrsFor edges uniprot_id).flatMap (leftJoinIdmap idmap)
  let rows := (joined.filter (interPass min_score strength loc_cats)).map interRowOf
  (rows.insertionSort scoreDesc).take limit

example :
    get_candidates [⟨"A", none, none⟩] "A" 50 =
      [⟨"A", "A", "Unknown"⟩, ⟨"A", "A", "Unknown"⟩] := by decide

example :
    get_candidates [⟨"A", some "N", none⟩] "" 50 = [⟨"A", "N", "Unknown"⟩] := by decide

example :
    fetch_interactions [⟨"A", "B", 1, "strong"⟩] [] "A" 0 none none 5 =
      [⟨"B", "B", "Unknown", 1, "strong"⟩] := by decide

example : get_display_name [⟨"A", some " N ", none⟩] "A" = "N" := by decide
example : get_display_name [] "Z" = "Z" := by decide

/-! ## Helper lemmas -/

theorem mem_dedupKeep {α : Type} [DecidableEq α] (seen : List α) (l : List α) (x : α) :
    x ∈ dedupKeep seen l ↔ x ∈ l ∧ x ∉ seen := by
  induction l generalizing seen with
  | nil => simp [dedupKeep]
  | cons r rs ih =>
    by_cases hr : r ∈ seen
    · rw [dedupKeep, if_pos hr, ih]
      constructor
      · rintro ⟨hx, hns⟩
        exact ⟨List.mem_cons_of_mem _ hx, hns⟩
      · rintro ⟨hx, hns⟩
        rcases List.mem_cons.1 hx with rfl | hx
        · exact absurd hr hns
        · exact ⟨hx, hns⟩
    · rw [dedupKeep, if_neg hr]
      constructor
      · intro hx
        rcases List.mem_cons.1 hx with rfl | hx
        · exact ⟨List.mem_cons_self _ _, hr⟩
        · obtain ⟨h1, h2⟩ := (ih _).1 hx
          refine ⟨List.mem_cons_of_mem _ h1, fun hs => h2 (List.mem_cons_of_mem _ hs)⟩
      · rintro ⟨hx, hns⟩
        rcases List.mem_cons.1 hx with rfl | hx
        · exact List.mem_cons_self _ _
        · by_cases hxr : x = r
          · subst hxr
            exact List.mem_cons_self _ _
          · exact List.mem_cons_of_mem _ ((ih _).2 ⟨hx, by simp [hxr, hns]⟩)

theorem pairwise_ne_dedupKeep {α : Type} [DecidableEq α] (seen : List α) (l : List α) :
    (dedupKeep seen l).Pairwise (fun a b => a ≠ b) := by
  induction l generalizing seen with
  | nil => simp [dedupKeep]
  | cons r rs ih =>
    by_cases hr : r ∈ seen
    · rw [dedupKeep, if_pos hr]
      exact ih seen
    · rw [dedupKeep, if_neg hr]
      refine List.pairwise_cons.2 ⟨fun y hy => ?_, ih _⟩
      intro hxy
      subst hxy
      exact ((mem_dedupKeep _ _ _).1 hy).2 (List.mem_cons_self _ _)

theorem likeMatch_doublePercent (t : List Char) : likeMatch ['%', '%'] t = true := by
  rw [likeMatch]
  refine List.any_eq_true.2 ⟨t, (List.mem_tails t t).2 (List.suffix_refl t), ?_⟩
  rw [likeMatch]
  refine List.any_eq_true.2 ⟨[], (List.mem_tails [] t).2 List.nil_suffix, ?_⟩
  rw [likeMatch]
  rfl

/-- Every output of the normalizer is one of the sixteen fixed labels. -/
theorem locCat_mem_locLabels (loc : Option String) : locCat loc ∈ locLabels := by
  rcases loc with _ | s
  · decide
  · simp only [locCat]
    by_cases h0 : (sqlTrim s == "") = true
    · rw [if_pos h0]
      decide
    · rw [if_neg h0]
      by_cases h1 : sqlLike (sqlLower s) "%mitochond%" = true
      · rw [if_pos h1]
        decide
      · rw [if_neg h1]
        by_cases h2 : sqlLike (sqlLower s) "%endoplasmic reticulum%" = true
        · rw [if_pos h2]
          decide
        · rw [if_neg h2]
          by_cases h3 : sqlLike (sqlLower s) "%golgi%" = true
          · rw [if_pos h3]
            decide
          · rw [if_neg h3]
            by_cases h4 : (sqlLike (sqlLower s) "%plasma membrane%" || sqlLike (sqlLower s) "%cell membrane%" || sqlLike (sqlLower s) "%cell surface%") = true
            · rw [if_pos h4]
              decide
            · rw [if_neg h4]
              by_cases h5 : sqlLike (sqlLower s) "%lysosom%" = true
              · rw [if_pos h5]
                decide
              · rw [if_neg h5]
                by_cases h6 : sqlLike (sqlLower s) "%endosom%" = true
                · rw [if_pos h6]
                  decide
                · rw [if_neg h6]
                  by_cases h7 : sqlLike (sqlLower s) "%peroxisom%" = true
                  · rw [if_pos h7]
                    decide
                  · rw [if_neg h7]
                    by_cases h8 : (sqlLike (sqlLower s) "%cytosol%" || sqlLike (sqlLower s) "%cytoplasm%") = true
                    · rw [if_pos h8]
                      decide
                    · rw [if_neg h8]
                      by_cases h9 : (sqlLike (sqlLower s) "%nucleus%" || sqlLike (sqlLower s) "%nucleoplasm%" || sqlLike (sqlLower s) "%nucleolus%" || sqlLike (sqlLower s) "%chromosom%" || sqlLike (sqlLower s) "%chromatin%") = true
                      · rw [if_pos h9]
                        decide
                      · rw [if_neg h9]
                        by_cases h10 : (sqlLike (sqlLower s) "%cytoskeleton%" || sqlLike (sqlLower s) "%microtubule%" || sqlLike (sqlLower s) "%actin%" || sqlLike (sqlLower s) "%intermediate filament%") = true
                        · rw [if_pos h10]
                          decide
                        · rw [if_neg h10]
                          by_cases h11 : (sqlLike (sqlLower s) "%extracellular%" || sqlLike (sqlLower s) "%secreted%") = true
                          · rw [if_pos h11]
                            decide
                          · rw [if_neg h11]
                            by_cases h12 : sqlLike (sqlLower s) "%ribosom%" = true
                            · rw [if_pos h12]
                              decide
                            · rw [if_neg h12]
                              by_cases h13 : sqlLike (sqlLower s) "%centrosom%" = true
                              · rw [if_pos h13]
                                decide
                              · rw [if_neg h13]
                                by_cases h14 : sqlLike (sqlLower s) "%membrane%" = true
                                · rw [if_pos h14]
                                  decide
                                · rw [if_neg h14]
                                  decide

/-! ## Claim C1: `normalize("nuclear membrane")` -/

/-- C1 counterexample: the location normalizer does NOT map
"nuclear membrane" to `Nucleus` — none of the nucleus-family keywords
(`nucleus`, `nucleoplasm`, `nucleolus`, `chromosom`, `chromatin`) is a
substring of "nuclear membrane". -/
theorem C1_nuclear_membrane_not_nucleus :
    locCat (some "nuclear membrane") ≠ "Nucleus" := by decide

/-- C1 (amended): `normalize("nuclear membrane")` returns `Membrane`:
the nucleus-family predicate does not match ("nuclear" is not
"nucleus"), so the compound string falls through to the generic
trailing "membrane" predicate. -/
theorem C1_nuclear_membrane_is_membrane :
    locCat (some "nuclear membrane") = "Membrane" := by decide

/-! ## Claim C2: totality of the normalizer -/

/-- C2 counterexample: a tab character is all-whitespace, yet the
normalizer maps it to `Other`, not `Unknown` — SQL `TRIM` strips only
space characters, so `TRIM(chr(9)) <> ''` and the blank test fails. -/
theorem C2_tab_not_unknown :
    locCat (some "\t") = "Other" ∧ "\t".toList.all Char.isWhitespace = true ∧ "\t" ≠ "" := by
  decide

/-- C2 (amended): the location normalizer is a total deterministic
function returning one of the 16 fixed labels; null input or input that
is empty after trimming spaces (SQL `TRIM` strips spaces only, so
whitespace-only strings made of non-space whitespace are NOT blank)
returns `Unknown`; non-blank input matching none of the ordered
substring predicates returns `Other`. -/
theorem C2_normalizer_total (loc : Option String) :
    locCat loc ∈ locLabels ∧
    (loc = none → locCat loc = "Unknown") ∧
    (∀ s, loc = some s → sqlTrim s = "" → locCat loc = "Unknown") ∧
    (∀ s, loc = some s → sqlTrim s ≠ "" → locMatchesSome s = false → locCat loc = "Other") := by
  refine ⟨locCat_mem_locLabels loc, ?_, ?_, ?_⟩
  · rintro rfl
    rfl
  · rintro s rfl htrim
    unfold locCat
    dsimp only
    rw [if_pos (by simpa using htrim)]
  · rintro s rfl htrim hmatch
    unfold locMatchesSome at hmatch
    simp only [Bool.or_eq_false_iff] at hmatch
    obtain ⟨⟨⟨⟨⟨⟨⟨⟨⟨⟨⟨⟨⟨⟨⟨⟨⟨⟨⟨⟨⟨⟨⟨⟨h1, h2⟩, h3⟩, h4⟩, h5⟩, h6⟩, h7⟩, h8⟩, h9⟩,
      h10⟩, h11⟩, h12⟩, h13⟩, h14⟩, h15⟩, h16⟩, h17⟩, h18⟩, h19⟩, h20⟩, h21⟩, h22⟩,
      h23⟩, h24⟩, h25⟩ := hmatch
    unfold locCat
    simp only [h1, h2, h3, h4, h5, h6, h7, h8, h9, h10, h11, h12, h13, h14, h15, h16,
      h17, h18, h19, h20, h21, h22, h23, h24, h25]
    rw [if_neg (by simpa using htrim)]
    rfl

/-- C2 witness: the amended normalizer theorem applied at the concrete
input "random unmapped tissue", which is non-blank and matches no
predicate, hence `Other`. -/
theorem C2_normalizer_total_witness :
    locCat (some "random unmapped tissue") = "Other" :=
  (C2_normalizer_total (some "random unmapped tissue")).2.2.2
    "random unmapped tissue" rfl (by decide) (by decide)

/-! ## Claim C3: the fetch_interactions filter/order/limit contract -/

/-- C3: `fetch_interactions` returns at most `limit` rows; every
returned row has score at least `min_score`; if the strength filter is
set every row's strength equals it; if the category filter is set and
non-empty every row's computed category is a member of it; and the rows
are ordered by score descending (`scoreDesc`). -/
theorem C3_fetch_interactions_contract (edges : List Edge) (idmap : List IdRecord)
    (uniprot_id : String) (min_score : ℚ) (strength : Option String)
    (loc_cats : Option (List String)) (limit : Nat) :
    (fetch_interactions edges idmap uniprot_id min_score strength loc_cats limit).length ≤ limit ∧
    (fetch_interactions edges idmap uniprot_id min_score strength loc_cats limit).Pairwise scoreDesc ∧
    ∀ r ∈ fetch_interactions edges idmap uniprot_id min_score strength loc_cats limit,
      min_score ≤ r.score ∧
      (∀ v, strength = some v → r.strength = v) ∧
      (∀ cats, loc_cats = some cats → cats ≠ [] → r.partner_location_category ∈ cats) := by
  refine ⟨List.length_take_le _ _, ?_, ?_⟩
  · exact List.Pairwise.sublist (List.take_sublist _ _)
      (List.sorted_insertionSort scoreDesc _)
  · intro r hr
    have hr1 : r ∈ (((nbrsFor edges uniprot_id).flatMap (leftJoinIdmap idmap)).filter
        (interPass min_score strength loc_cats)).map interRowOf :=
      (List.perm_insertionSort scoreDesc _).subset (List.mem_of_mem_take hr)
    obtain ⟨p, hpmem, rfl⟩ := List.mem_map.1 hr1
    have hpass : interPass min_score strength loc_cats p = true :=
      (List.mem_filter.1 hpmem).2
    unfold interPass at hpass
    simp only [Bool.and_eq_true, decide_eq_true_eq] at hpass
    obtain ⟨⟨hsc, hstr⟩, hcat⟩ := hpass
    refine ⟨hsc, ?_, ?_⟩
    · rintro v rfl
      unfold strengthPass at hstr
      exact eq_of_beq hstr
    · rintro cats rfl hne
      simp only [locCatsPass] at hcat
      rw [if_neg (by simpa using hne)] at hcat
      simpa [List.contains_eq_any_beq, List.any_eq_true] using hcat

/-- C3 witness: the contract instantiated on a concrete three-edge
table with every filter active. -/
theorem C3_fetch_interactions_contract_witness :
    (fetch_interactions [⟨"A", "B", 1, "strong"⟩, ⟨"C", "A", 3, "weak"⟩, ⟨"A", "D", 2, "strong"⟩]
        [⟨"B", some "BN", some "nucleus"⟩] "A" 1 (some "strong") (some ["Nucleus", "Unknown"]) 2 =
      [⟨"D", "D", "Unknown", 2, "strong"⟩, ⟨"B", "BN", "Nucleus", 1, "strong"⟩]) ∧
    (fetch_interactions [⟨"A", "B", 1, "strong"⟩, ⟨"C", "A", 3, "weak"⟩, ⟨"A", "D", 2, "strong"⟩]
        [⟨"B", some "BN", some "nucleus"⟩] "A" 1 (some "strong") (some ["Nucleus", "Unknown"]) 2).Pairwise scoreDesc := by
  refine ⟨by decide, ?_⟩
  exact (C3_fetch_interactions_contract
    [⟨"A", "B", 1, "strong"⟩, ⟨"C", "A", 3, "weak"⟩, ⟨"A", "D", 2, "strong"⟩]
    [⟨"B", some "BN", some "nucleus"⟩] "A" 1 (some "strong") (some ["Nucleus", "Unknown"]) 2).2.1

/-! ## Claim C4: search with empty text -/

/-- C4 counterexample: called with empty text, `get_candidates` does
NOT return an empty result — the name-substring branch runs with the
pattern `'%%'`, which matches every record with a non-null
protein_name. -/
theorem C4_empty_text_not_empty :
    get_candidates [⟨"A", some "N", none⟩] "" 50 ≠ [] := by decide

/-- With empty query text the name-tier test degenerates to "the
protein_name is non-null": the pattern `'%' || '' || '%'` matches any
string. -/
theorem nameTierHit_empty (m : IdRecord) :
    nameTierHit "" m = m.protein_name.isSome := by
  rcases m with ⟨i, pn, l⟩
  rcases pn with _ | p
  · rfl
  · show sqlILike p ("%" ++ "" ++ "%") = true
    show likeMatch (sqlLower ("%" ++ "" ++ "%")).toList (sqlLower p).toList = true
    exact likeMatch_doublePercent _

/-- C4 (amended): with empty query text `get_candidates` takes the
name-substring branch and returns every record whose protein_name is
non-null, ordered by display name and truncated to `limit` — it does
not error, but it does not return an empty sequence either (whenever
such records exist and `limit > 0`). -/
theorem C4_empty_text_matches_all (idmap : List IdRecord) (limit : Nat) :
    get_candidates idmap "" limit =
      (((idmap.filter (fun m => m.protein_name.isSome)).map nameCandOf).insertionSort
        candNameLE).take limit := by
  have hcond : ¬ (("" : String) ≠ "" ∧ ¬ (' ' ∈ ("" : String).toList) ∧ ("" : String).length ≤ 12) := by
    intro h
    exact h.1 rfl
  rw [get_candidates, if_neg hcond, nameBranch, List.filter_congr (fun m _ => nameTierHit_empty m)]

/-! ## Claim C5: deduplication in the identifier branch -/

/-- C5 counterexample: for a record whose id exactly equals the query,
the exact tier (rank 1) and the prefix tier (rank 2) each contribute a
row; the `GROUP BY` key includes `rank`, so the projected result holds
the same `(id, pname, loc_cat)` triple twice and is not duplicate-free. -/
theorem C5_duplicate_triple :
    ¬ (get_candidates [⟨"A", none, none⟩] "A" 50).Nodup := by decide

/-- Every row of the three-tier union carries rank 1, 2 or 3. -/
theorem rank_of_mem_candRowsOf {idmap : List IdRecord} {q : String} {r : CandRow}
    (hr : r ∈ candRowsOf idmap q) : r.rank = 1 ∨ r.rank = 2 ∨ r.rank = 3 := by
  unfold candRowsOf at hr
  rcases List.mem_append.1 hr with hr' | h3
  · rcases List.mem_append.1 hr' with h1 | h2
    · obtain ⟨m, _, rfl⟩ := List.mem_map.1 h1
      exact Or.inl rfl
    · obtain ⟨m, _, rfl⟩ := List.mem_map.1 h2
      exact Or.inr (Or.inl rfl)
  · obtain ⟨m, _, rfl⟩ := List.mem_map.1 h3
    exact Or.inr (Or.inr rfl)

/-- A rank-1 row of the union comes from a record whose id is exactly
the query text. -/
theorem rank_one_of_mem_candRowsOf {idmap : List IdRecord} {q : String} {r : CandRow}
    (hr : r ∈ candRowsOf idmap q) (h1 : r.rank = 1) :
    ∃ m ∈ idmap, m.id = q ∧ r = exactRowOf m := by
  unfold candRowsOf at hr
  rcases List.mem_append.1 hr with hr' | h3
  · rcases List.mem_append.1 hr' with hh1 | hh2
    · obtain ⟨m, hm, rfl⟩ := List.mem_map.1 hh1
      exact ⟨m, (List.mem_filter.1 hm).1, eq_of_beq (List.mem_filter.1 hm).2, rfl⟩
    · obtain ⟨m, _, rfl⟩ := List.mem_map.1 hh2
      simp [prefixRowOf] at h1
  · obtain ⟨m, _, rfl⟩ := List.mem_map.1 h3
    simp [nameRowOf] at h1

/-- A record whose id equals the query contributes its rank-1 row to
the union. -/
theorem exactRow_mem_candRowsOf {idmap : List IdRecord} {q : String} {m : IdRecord}
    (hm : m ∈ idmap) (hid : m.id = q) : exactRowOf m ∈ candRowsOf idmap q := by
  unfold candRowsOf
  refine List.mem_append.2 (Or.inl (List.mem_append.2 (Or.inl ?_)))
  exact List.mem_map.2 ⟨m, List.mem_filter.2 ⟨hm, by simp [hid]⟩, rfl⟩

/-- C5 (amended): in the identifier branch the grouping key is the full
`(id, pname, loc_cat, rank)` quadruple, not the projected triple: the
grouped row list that `get_candidates` sorts and projects holds exactly
the quadruples of the three-tier union `candRowsOf` (extensionally),
each quadruple exactly once (pairwise distinct), and `get_candidates`
is its projection truncated to `limit` — while the projected triple
itself may repeat across tiers (as the counterexample shows). -/
theorem C5_dedup_by_quadruple (idmap : List IdRecord) (q : String) (limit : Nat)
    (hq0 : q ≠ "") (hsp : ' ' ∉ q.toList) (hlen : q.length ≤ 12) :
    (∀ r : CandRow, r ∈ (dedupKeep [] (candRowsOf idmap q)).insertionSort candLE ↔
      r ∈ candRowsOf idmap q) ∧
    ((dedupKeep [] (candRowsOf idmap q)).insertionSort candLE).Pairwise (fun a b => a ≠ b) ∧
    get_candidates idmap q limit =
      (((dedupKeep [] (candRowsOf idmap q)).insertionSort candLE).map candProj).take limit := by
  refine ⟨?_, ?_, ?_⟩
  · intro r
    rw [(List.perm_insertionSort candLE _).mem_iff, mem_dedupKeep]
    simp
  · exact ((List.perm_insertionSort candLE _).pairwise_iff (fun h => Ne.symm h)).2
      (pairwise_ne_dedupKeep [] _)
  · rw [get_candidates, if_pos ⟨hq0, hsp, hlen⟩, idBranch]

/-- C5 witness: the amended statement instantiated at the
counterexample table. -/
theorem C5_dedup_by_quadruple_witness :
    (∀ r : CandRow,
      r ∈ (dedupKeep [] (candRowsOf [⟨"A", none, none⟩] "A")).insertionSort candLE ↔
        r ∈ candRowsOf [⟨"A", none, none⟩] "A") ∧
    ((dedupKeep [] (candRowsOf [⟨"A", none, none⟩] "A")).insertionSort candLE).Pairwise
      (fun a b => a ≠ b) ∧
    get_candidates [⟨"A", none, none⟩] "A" 50 =
      (((dedupKeep [] (candRowsOf [⟨"A", none, none⟩] "A")).insertionSort candLE).map
        candProj).take 50 :=
  C5_dedup_by_quadruple [⟨"A", none, none⟩] "A" 50 (by decide) (by decide) (by decide)

/-! ## Claim C6: the exact-id match is ranked first -/

/-- C6: if the query text (non-empty, no space, at most 12 characters)
exactly equals the id of a record of the metadata table (whose ids are
unique), the sorted identifier-branch result starts with that record's
exact-match row — ahead of every prefix- and name-tier row — the whole
list is ordered by `(rank, pname)`, and `get_candidates` is its
projection truncated to `limit`. -/
theorem C6_exact_id_first (idmap : List IdRecord) (q : String) (limit : Nat)
    (hq0 : q ≠ "") (hsp : ' ' ∉ q.toList) (hlen : q.length ≤ 12)
    (huniq : (idmap.map IdRecord.id).Nodup)
    (m : IdRecord) (hm : m ∈ idmap) (hid : m.id = q) :
    ∃ rest : List CandRow,
      (dedupKeep [] (candRowsOf idmap q)).insertionSort candLE = exactRowOf m :: rest ∧
      (exactRowOf m :: rest).Pairwise candLE ∧
      get_candidates idmap q limit = ((exactRowOf m :: rest).map candProj).take limit := by
  have hperm : List.Perm ((dedupKeep [] (candRowsOf idmap q)).insertionSort candLE)
      (dedupKeep [] (candRowsOf idmap q)) := List.perm_insertionSort _ _
  have hmem : exactRowOf m ∈ (dedupKeep [] (candRowsOf idmap q)).insertionSort candLE :=
    hperm.mem_iff.2 ((mem_dedupKeep _ _ _).2 ⟨exactRow_mem_candRowsOf hm hid, by simp⟩)
  have hsorted : ((dedupKeep [] (candRowsOf idmap q)).insertionSort candLE).Pairwise candLE :=
    List.sorted_insertionSort _ _
  obtain ⟨h, rest, hcons⟩ := List.exists_cons_of_ne_nil (List.ne_nil_of_mem hmem)
  have hh : h = exactRowOf m := by
    rcases List.mem_cons.1 (hcons ▸ hmem) with heq | hrest
    · exact heq.symm
    · have hle : candLE h (exactRowOf m) :=
        (List.pairwise_cons.1 (hcons ▸ hsorted)).1 _ hrest
      have hhm : h ∈ candRowsOf idmap q :=
        ((mem_dedupKeep _ _ _).1 (hperm.subset (hcons ▸ List.mem_cons_self h rest))).1
      have hrank : h.rank = 1 := by
        rcases hle with hlt | ⟨heq', _⟩
        · have : h.rank = 0 := by
            simpa [exactRowOf] using Nat.lt_one_iff.1 hlt
          rcases rank_of_mem_candRowsOf hhm with h' | h' | h' <;> omega
        · simpa [exactRowOf] using heq'
      obtain ⟨m', hm', hid', heq'⟩ := rank_one_of_mem_candRowsOf hhm hrank
      have : m' = m :=
        List.inj_on_of_nodup_map huniq hm' hm (by rw [hid', hid])
      rw [heq', this]
  subst hh
  refine ⟨rest, hcons, hcons ▸ hsorted, ?_⟩
  rw [get_candidates, if_pos ⟨hq0, hsp, hlen⟩, idBranch, hcons]

/-- C6 witness: a two-record table where "B" is both an exact id and a
prefix of another id; the exact-match row comes first. -/
theorem C6_exact_id_first_witness :
    ∃ rest : List CandRow,
      (dedupKeep [] (candRowsOf [⟨"B", some "x", none⟩, ⟨"BA", some "a", none⟩] "B")).insertionSort candLE =
        exactRowOf ⟨"B", some "x", none⟩ :: rest ∧
      (exactRowOf ⟨"B", some "x", none⟩ :: rest).Pairwise candLE ∧
      get_candidates [⟨"B", some "x", none⟩, ⟨"BA", some "a", none⟩] "B" 10 =
        ((exactRowOf ⟨"B", some "x", none⟩ :: rest).map candProj).take 10 :=
  C6_exact_id_first [⟨"B", some "x", none⟩, ⟨"BA", some "a", none⟩] "B" 10
    (by decide) (by decide) (by decide) (by decide) ⟨"B", some "x", none⟩
    (List.mem_cons_self _ _) rfl

/-! ## Claim C7: the display-name fallback chain -/

/-- C7 counterexample: a protein_name consisting of a single tab
survives `NULLIF(TRIM(...), '')` because SQL `TRIM` strips only spaces,
so `get_display_name` returns a non-empty but all-whitespace string. -/
theorem C7_display_name_all_whitespace :
    get_display_name [⟨"A", some "\t", none⟩] "A" = "\t" ∧
    "\t".toList.all Char.isWhitespace = true ∧ ("A" : String) ≠ "" := by decide

/-- C7 (amended): `get_display_name` is total and never errors; for an
id absent from the table it returns the id unchanged; for the first
matching record it returns the space-trimmed protein_name when that
trims to a non-empty string, and otherwise the id; given a non-empty id
the result is never the empty string — though it can be all-whitespace
when the protein_name consists of non-space whitespace, as the
counterexample shows. -/
theorem C7_display_name_fallback (idmap : List IdRecord) (uniprot_id : String) :
    ((∀ m ∈ idmap, m.id ≠ uniprot_id) → get_display_name idmap uniprot_id = uniprot_id) ∧
    (∀ m, idmap.find? (fun x => x.id == uniprot_id) = some m →
      (m.protein_name = none → get_display_name idmap uniprot_id = uniprot_id) ∧
      (∀ p, m.protein_name = some p →
        (sqlTrim p = "" → get_display_name idmap uniprot_id = uniprot_id) ∧
        (sqlTrim p ≠ "" → get_display_name idmap uniprot_id = sqlTrim p))) ∧
    (uniprot_id ≠ "" → get_display_name idmap uniprot_id ≠ "") := by
  refine ⟨?_, ?_, ?_⟩
  · intro hall
    have hfind : idmap.find? (fun x => x.id == uniprot_id) = none :=
      List.find?_eq_none.2 (fun m hm => by simpa using hall m hm)
    simp [get_display_name, hfind]
  · intro m hfind
    constructor
    · intro hpn
      simp [get_display_name, hfind, displayFallback, hpn]
    · intro p hpn
      constructor
      · intro ht
        simp [get_display_name, hfind, displayFallback, hpn, ht]
      · intro ht
        simp only [get_display_name, hfind, displayFallback, hpn]
        rw [if_neg (by simpa using ht)]
  · intro hne
    rcases hfind : idmap.find? (fun x => x.id == uniprot_id) with _ | m
    · simp only [get_display_name, hfind]
      exact hne
    · simp only [get_display_name, hfind]
      rcases hpn : m.protein_name with _ | p
      · simp only [displayFallback]
        exact hne
      · simp only [displayFallback]
        by_cases ht : (sqlTrim p == "") = true
        · rw [if_pos ht]
          exact hne
        · rw [if_neg ht]
          intro hc
          exact ht (by simp [hc])

/-- C7 witness: the fallback chain evaluated on a table holding a
record with a padded name, one with an empty name, and a miss. -/
theorem C7_display_name_fallback_witness :
    get_display_name [⟨"A", some " N ", none⟩] "A" = sqlTrim " N " ∧
    get_display_name [⟨"A", some " N ", none⟩] "Z" = "Z" ∧
    get_display_name [⟨"A", some " N ", none⟩] "Z" ≠ "" := by
  refine ⟨?_, ?_, ?_⟩
  · exact ((((C7_display_name_fallback [⟨"A", some " N ", none⟩] "A").2.1
      ⟨"A", some " N ", none⟩ rfl).2 " N " rfl).2 (by decide))
  · exact (C7_display_name_fallback [⟨"A", some " N ", none⟩] "Z").1 (by decide)
  · exact (C7_display_name_fallback [⟨"A", some " N ", none⟩] "Z").2.2 (by decide)

/-! ## Claim C8: endpoint symmetry of fetch_interactions -/

/-- A `Nodup` list whose elements are all equal to one value has at
most one element. -/
theorem length_le_one_of_nodup_const {α : Type} {l : List α} {c : α}
    (hnd : l.Nodup) (hc : ∀ x ∈ l, x = c) : l.length ≤ 1 := by
  match l with
  | [] => simp
  | [a] => simp
  | a :: b :: t =>
    exfalso
    have ha := hc a (List.mem_cons_self _ _)
    have hb := hc b (List.mem_cons_of_mem _ (List.mem_cons_self _ _))
    have : a ≠ b := (List.pairwise_cons.1 hnd).1 b (List.mem_cons_self _ _)
    exact this (ha.trans hb.symm)

/-- With unique metadata ids, at most one record matches a partner. -/
theorem length_filter_id_le_one (idmap : List IdRecord) (pid : String)
    (huniq : (idmap.map IdRecord.id).Nodup) :
    (idmap.filter (fun m => m.id == pid)).length ≤ 1 := by
  have hsub : List.Sublist ((idmap.filter (fun m => m.id == pid)).map IdRecord.id)
      (idmap.map IdRecord.id) :=
    List.Sublist.map IdRecord.id (List.filter_sublist idmap)
  have hnd : ((idmap.filter (fun m => m.id == pid)).map IdRecord.id).Nodup :=
    List.Nodup.sublist hsub huniq
  have hc : ∀ x ∈ (idmap.filter (fun m => m.id == pid)).map IdRecord.id, x = pid := by
    intro x hx
    obtain ⟨m, hm, rfl⟩ := List.mem_map.1 hx
    exact eq_of_beq (List.mem_filter.1 hm).2
  have := length_le_one_of_nodup_const hnd hc
  simpa using this

/-- With unique metadata ids, the left join extends each neighbor row
to exactly one output row (a real match or the null-extended row). -/
theorem length_leftJoinIdmap (idmap : List IdRecord) (n : Nbr)
    (huniq : (idmap.map IdRecord.id).Nodup) :
    (leftJoinIdmap idmap n).length = 1 := by
  have hle := length_filter_id_le_one idmap n.partner huniq
  rcases hf : idmap.filter (fun m => m.id == n.partner) with _ | ⟨m, ms⟩
  · simp [leftJoinIdmap, hf]
  · rw [hf] at hle
    have hms : ms = [] := by
      simp only [List.length_cons] at hle
      exact List.eq_nil_of_length_eq_zero (by omega)
    subst hms
    simp [leftJoinIdmap, hf]

/-- Each neighbor row survives the left join with some (possibly null)
metadata side. -/
theorem exists_mem_leftJoinIdmap (idmap : List IdRecord) (n : Nbr) :
    ∃ x, (n, x) ∈ leftJoinIdmap idmap n := by
  rcases hf : idmap.filter (fun m => m.id == n.partner) with _ | ⟨m, ms⟩
  · exact ⟨none, by simp [leftJoinIdmap, hf]⟩
  · exact ⟨some m, by simp [leftJoinIdmap, hf]⟩

/-- `flatMap` over a function producing singleton-length lists
preserves length. -/
theorem length_flatMap_one {α β : Type} (l : List α) (f : α → List β)
    (h : ∀ a, (f a).length = 1) : (l.flatMap f).length = l.length := by
  induction l with
  | nil => rfl
  | cons a t ih =>
    rw [List.flatMap_cons, List.length_append, h a, ih, List.length_cons]
    omega

/-- With the trivial filters (`min_score = 0` over non-negative scores,
no strength filter, no category filter) and a limit at least the number
of the protein's edges, every neighbor row surfaces in the
`fetch_interactions` output with its score and strength intact. -/
theorem mem_fetch_interactions_of_nbr (edges : List Edge) (idmap : List IdRecord)
    (uid : String) (lim : Nat) (huniq : (idmap.map IdRecord.id).Nodup)
    (hlim : (nbrsFor edges uid).length ≤ lim)
    (n : Nbr) (hn : n ∈ nbrsFor edges uid) (hsc : 0 ≤ n.score) :
    ∃ r ∈ fetch_interactions edges idmap uid 0 none none lim,
      r.partner_id = n.partner ∧ r.score = n.score ∧ r.strength = n.strength := by
  obtain ⟨x, hx⟩ := exists_mem_leftJoinIdmap idmap n
  have hpj : (n, x) ∈ (nbrsFor edges uid).flatMap (leftJoinIdmap idmap) :=
    List.mem_flatMap.2 ⟨n, hn, hx⟩
  have hpass : interPass 0 none none (n, x) = true := by
    unfold interPass strengthPass locCatsPass
    simp [hsc]
  have hrmem : interRowOf (n, x) ∈
      (((nbrsFor edges uid).flatMap (leftJoinIdmap idmap)).filter
        (interPass 0 none none)).map interRowOf :=
    List.mem_map.2 ⟨(n, x), List.mem_filter.2 ⟨hpj, hpass⟩, rfl⟩
  have hlen : ((((nbrsFor edges uid).flatMap (leftJoinIdmap idmap)).filter
      (interPass 0 none none)).map interRowOf).length ≤ lim := by
    rw [List.length_map]
    refine le_trans (le_trans (List.length_filter_le _ _) ?_) hlim
    exact le_of_eq (length_flatMap_one _ _ (fun n' => length_leftJoinIdmap idmap n' huniq))
  refine ⟨interRowOf (n, x), ?_, rfl, rfl, rfl⟩
  show interRowOf (n, x) ∈
    (((((nbrsFor edges uid).flatMap (leftJoinIdmap idmap)).filter
      (interPass 0 none none)).map interRowOf).insertionSort scoreDesc).take lim
  rw [List.take_of_length_le (by rw [List.length_insertionSort]; exact hlen)]
  exact (List.perm_insertionSort _ _).mem_iff.2 hrmem

/-- C8: endpoint symmetry — for every edge (under the data-model
invariants: non-negative score, unique metadata ids) querying either
endpoint with the trivial filters and a sufficient limit returns a row
naming the other endpoint with the identical score and strength. -/
theorem C8_endpoint_symmetry (edges : List Edge) (idmap : List IdRecord) (e : Edge)
    (he : e ∈ edges) (hsc : 0 ≤ e.score) (huniq : (idmap.map IdRecord.id).Nodup)
    (limA limB : Nat) (hlimA : (nbrsFor edges e.src).length ≤ limA)
    (hlimB : (nbrsFor edges e.dst).length ≤ limB) :
    (∃ r ∈ fetch_interactions edges idmap e.src 0 none none limA,
        r.partner_id = e.dst ∧ r.score = e.score ∧ r.strength = e.strength) ∧
    (∃ r ∈ fetch_interactions edges idmap e.dst 0 none none limB,
        r.partner_id = e.src ∧ r.score = e.score ∧ r.strength = e.strength) := by
  constructor
  · have hn : (⟨e.dst, e.score, e.strength⟩ : Nbr) ∈ nbrsFor edges e.src := by
      unfold nbrsFor
      refine List.mem_map.2 ⟨e, List.mem_filter.2 ⟨he, by simp⟩, by simp⟩
    exact mem_fetch_interactions_of_nbr edges idmap e.src limA huniq hlimA _ hn hsc
  · have hn : (⟨if e.src == e.dst then e.dst else e.src, e.score, e.strength⟩ : Nbr) ∈
        nbrsFor edges e.dst := by
      unfold nbrsFor
      exact List.mem_map.2 ⟨e, List.mem_filter.2 ⟨he, by simp⟩, rfl⟩
    obtain ⟨r, hr, h1, h2, h3⟩ :=
      mem_fetch_interactions_of_nbr edges idmap e.dst limB huniq hlimB _ hn hsc
    refine ⟨r, hr, ?_, h2, h3⟩
    rw [h1]
    by_cases h : (e.src == e.dst) = true
    · simp only [if_pos h]
      exact (eq_of_beq h).symm
    · simp only [if_neg h]

/-- C8 witness: symmetry on a concrete one-edge table. -/
theorem C8_endpoint_symmetry_witness :
    (∃ r ∈ fetch_interactions [⟨"A", "B", 1, "strong"⟩] [] "A" 0 none none 1,
        r.partner_id = "B" ∧ r.score = 1 ∧ r.strength = "strong") ∧
    (∃ r ∈ fetch_interactions [⟨"A", "B", 1, "strong"⟩] [] "B" 0 none none 1,
        r.partner_id = "A" ∧ r.score = 1 ∧ r.strength = "strong") :=
  C8_endpoint_symmetry [⟨"A", "B", 1, "strong"⟩] [] ⟨"A", "B", 1, "strong"⟩
    (List.mem_cons_self _ _) (by decide) (by decide) 1 1 (by decide) (by decide)

/-! ## Claim C9: unescaped interpolation into ILIKE patterns -/

/-- Literal substring test: does `sub` occur in `s` verbatim (no
pattern metacharacters)? -/
def strContains (s sub : String) : Bool :=
  s.toList.tails.any (fun t => sub.toList.isPrefixOf t)

/-- C9: the query text is interpolated unescaped into the ILIKE
patterns, so the single character "%" acts as a wildcard: the search
returns rows (twice, via the prefix and name tiers) whose id and
protein_name do not contain "%" as a literal substring. -/
theorem C9_wildcard_query :
    get_candidates [⟨"XYZ", some "Name", none⟩] "%" 50 =
      [⟨"XYZ", "Name", "Unknown"⟩, ⟨"XYZ", "Name", "Unknown"⟩] ∧
    strContains "XYZ" "%" = false ∧ strContains "Name" "%" = false := by decide

/-! ## Claim C10: NULL protein_name is unreachable in the name branch -/

/-- C10 counterexample: the branch gate tests only for the space
character (`" " not in query_text`), not general whitespace — a query
containing a tab but no space and at most 12 characters takes the
identifier branch, which DOES return a record whose protein_name is
NULL (here via the exact and prefix tiers). -/
theorem C10_tab_query_returns_null_name :
    get_candidates [⟨"A\t", none, none⟩] "A\t" 5 =
      [⟨"A\t", "A\t", "Unknown"⟩, ⟨"A\t", "A\t", "Unknown"⟩] ∧
    "A\t".toList.any Char.isWhitespace = true ∧ "A\t".length ≤ 12 := by decide

/-- C10 (amended): for query text containing a space character — not
arbitrary whitespace — or longer than 12 characters, `get_candidates`
takes the name-only branch, and every returned row comes from a record
whose protein_name is non-null and matches the substring pattern — a
record with NULL protein_name is never returned there. -/
theorem C10_null_name_unreachable (idmap : List IdRecord) (q : String) (limit : Nat)
    (hbr : ' ' ∈ q.toList ∨ 12 < q.length) :
    ∀ c ∈ get_candidates idmap q limit,
      ∃ m ∈ idmap, (∃ p, m.protein_name = some p ∧ sqlILike p ("%" ++ q ++ "%") = true) ∧
        c = nameCandOf m := by
  intro c hc
  have hcond : ¬ (q ≠ "" ∧ ¬ (' ' ∈ q.toList) ∧ q.length ≤ 12) := by
    rcases hbr with h | h
    · intro hh
      exact hh.2.1 h
    · intro hh
      exact Nat.lt_irrefl _ (Nat.lt_of_lt_of_le h hh.2.2)
  rw [get_candidates, if_neg hcond, nameBranch] at hc
  have hc1 : c ∈ (idmap.filter (nameTierHit q)).map nameCandOf :=
    (List.perm_insertionSort candNameLE _).subset (List.mem_of_mem_take hc)
  obtain ⟨m, hm, rfl⟩ := List.mem_map.1 hc1
  refine ⟨m, (List.mem_filter.1 hm).1, ?_, rfl⟩
  have hhit := (List.mem_filter.1 hm).2
  unfold nameTierHit at hhit
  rcases hpn : m.protein_name with _ | p
  · rw [hpn] at hhit
    cases hhit
  · rw [hpn] at hhit
    exact ⟨p, rfl, hhit⟩

/-- C10 witness: a spaced query runs the name branch; the returned row
comes from the record with a non-null matching name, never from the
NULL-named record. -/
theorem C10_null_name_unreachable_witness :
    ∃ m ∈ [(⟨"A", some "ab c", none⟩ : IdRecord), ⟨"B", none, none⟩],
      (∃ p, m.protein_name = some p ∧ sqlILike p ("%" ++ "b c" ++ "%") = true) ∧
      (⟨"A", "ab c", "Unknown"⟩ : Cand) = nameCandOf m :=
  C10_null_name_unreachable [⟨"A", some "ab c", none⟩, ⟨"B", none, none⟩] "b c" 5
    (Or.inl (by decide)) ⟨"A", "ab c", "Unknown"⟩ (by decide)
